import Mathlib

set_option maxRecDepth 16000
set_option maxHeartbeats 2000000

/-!
Shallow embedding of the SPK archive decoder (src/spk.rs and src/chunks.rs).

The decoder reads a chunk-based container from a seekable byte source. We
model the source as an immutable byte list `d : List Nat` together with an
explicit cursor position `p : Nat`; every reader is a pure function from a
position to an optional `(value, new position)` pair (`none` models a binrw
decode failure, after which binrw restores the reader position, so callers
simply keep their old position). Multi-byte integers are little-endian.
Rust `u64` additions (stream positions, offset arithmetic) wrap modulo
2 ^ 64, made explicit through `wrap64`.
-/

/-- Reduction modulo 2 ^ 64, the wrapping of Rust release-mode u64 addition. -/
def wrap64 (n : Nat) : Nat := n % 2 ^ 64

/-- Read one byte at cursor `p`; fails at end of stream. Stored values are
reduced mod 256, since a byte source only ever yields bytes. -/
def readByte (d : List Nat) (p : Nat) : Option (Nat × Nat) :=
  match d.get? p with
  | none => none
  | some b => some (b % 256, p + 1)

/-- Read exactly `n` bytes starting at cursor `p`. -/
def readBytes (d : List Nat) : Nat → Nat → Option (List Nat × Nat)
  | 0, p => some ([], p)
  | n + 1, p =>
    match readByte d p with
    | none => none
    | some (b, p1) =>
      match readBytes d n p1 with
      | none => none
      | some (bs, p2) => some (b :: bs, p2)

/-- Little-endian value of a byte list (first byte least significant). -/
def leVal : List Nat → Nat
  | [] => 0
  | b :: bs => b + 256 * leVal bs

/-- Read a little-endian 16-bit integer. -/
def readU16 (d : List Nat) (p : Nat) : Option (Nat × Nat) :=
  match readBytes d 2 p with
  | none => none
  | some (bs, p1) => some (leVal bs, p1)

/-- Read a little-endian 32-bit integer. -/
def readU32 (d : List Nat) (p : Nat) : Option (Nat × Nat) :=
  match readBytes d 4 p with
  | none => none
  | some (bs, p1) => some (leVal bs, p1)

/-- Read a little-endian 64-bit integer. -/
def readU64 (d : List Nat) (p : Nat) : Option (Nat × Nat) :=
  match readBytes d 8 p with
  | none => none
  | some (bs, p1) => some (leVal bs, p1)

/-- Read a fixed magic tag: consume `tag.length` bytes and require that they
equal `tag` (the binrw `magic` directive). -/
def readMagic (d : List Nat) (tag : List Nat) (p : Nat) : Option Nat :=
  match readBytes d tag.length p with
  | none => none
  | some (bs, p1) => if bs = tag then some p1 else none

/-- Bytes of a NUL-terminated string: the content bytes (mod 256) before the
first NUL together with the count of bytes consumed including the NUL;
`none` when no NUL occurs before the end of the input. -/
def takeUntilNul : List Nat → Option (List Nat × Nat)
  | [] => none
  | b :: rest =>
    if b % 256 = 0 then some ([], 1)
    else
      match takeUntilNul rest with
      | none => none
      | some (bs, k) => some (b % 256 :: bs, k + 1)

/-- Read a NUL-terminated byte string at cursor `p` (binrw `NullString`):
fails when the stream ends before a NUL byte. -/
def readNullString (d : List Nat) (p : Nat) : Option (List Nat × Nat) :=
  match takeUntilNul (d.drop p) with
  | none => none
  | some (bs, k) => some (bs, p + k)

/-- The four tag bytes of each chunk kind. -/
def tagSPKS : List Nat := [0x53, 0x50, 0x4b, 0x53]

def tagSPK0 : List Nat := [0x53, 0x50, 0x4b, 0x30]

def tagSIDX : List Nat := [0x53, 0x49, 0x44, 0x58]

def tagSTRS : List Nat := [0x53, 0x54, 0x52, 0x53]

def tagFINF : List Nat := [0x46, 0x49, 0x4e, 0x46]

def tagFI64 : List Nat := [0x46, 0x49, 0x36, 0x34]

def tagFEND : List Nat := [0x46, 0x45, 0x4e, 0x44]

def tagSDAT : List Nat := [0x53, 0x44, 0x41, 0x54]

def tagSZ64 : List Nat := [0x53, 0x5a, 0x36, 0x34]

namespace chunks

/-- The two on-disk byte-length encodings (chunks.rs `ByteLen`): `New` is
signaled by the all-ones 32-bit sentinel followed by a 64-bit value, `Old`
is a plain 32-bit value. -/
inductive ByteLen
  | New (n : Nat)
  | Old (n : Nat)
deriving DecidableEq, Repr

/-- chunks.rs `ByteLen::byte_len` (the `Old` value is zero-widened to u64). -/
def ByteLen.byte_len : ByteLen → Nat
  | .New n => n
  | .Old n => n

/-- chunks.rs `ByteLen::header_size`: 16 for the extended form (tag, sentinel
and 64-bit value), 8 for the legacy form (tag and 32-bit value). -/
def ByteLen.header_size : ByteLen → Nat
  | .New _ => 16
  | .Old _ => 8

/-- Decode a `ByteLen` just after a chunk tag. binrw tries the `New` variant
first (sentinel magic, then a u64), rewinding and falling back to `Old` when
it fails; in particular a sentinel followed by a truncated u64 decodes as
`Old 0xffffffff`. -/
def readByteLen (d : List Nat) (p : Nat) : Option (ByteLen × Nat) :=
  match readU32 d p with
  | none => none
  | some (v, p1) =>
    if v = 0xffffffff then
      match readU64 d p1 with
      | some (n, p2) => some (.New n, p2)
      | none => some (.Old v, p1)
    else some (.Old v, p1)

/-- chunks.rs `PackageType`, decoded from one byte with on-disk values
1, 3 and 2; any other byte is a decode failure. -/
inductive PackageType
  | Spike1
  | Spike2
  | Game
deriving DecidableEq, Repr

/-- Decode a `PackageType` byte (binrw `repr(u8)` enum). -/
def readPackageType (d : List Nat) (p : Nat) : Option (PackageType × Nat) :=
  match readByte d p with
  | some (1, p1) => some (.Spike1, p1)
  | some (3, p1) => some (.Spike2, p1)
  | some (2, p1) => some (.Game, p1)
  | _ => none

/-- chunks.rs `SPKS`: the container header. -/
structure SPKS where
  byte_length : ByteLen
  chunk_count : Nat
deriving DecidableEq, Repr

/-- Decode an `SPKS` chunk: tag, `ByteLen`, 32-bit package count. -/
def readSPKS (d : List Nat) (p : Nat) : Option (SPKS × Nat) :=
  match readMagic d tagSPKS p with
  | none => none
  | some p1 =>
    match readByteLen d p1 with
    | none => none
    | some (bl, p2) =>
      match readU32 d p2 with
      | none => none
      | some (c, p3) => some (⟨bl, c⟩, p3)

/-- chunks.rs `SPK0`: the package envelope. -/
structure SPK0 where
  byte_len : ByteLen
deriving DecidableEq, Repr

/-- chunks.rs `SPK0::offset_to_next`: header size plus payload length
(a u64 sum, hence wrapping). -/
def SPK0.offset_to_next (x : SPK0) : Nat :=
  wrap64 (x.byte_len.header_size + x.byte_len.byte_len)

/-- Decode an `SPK0` chunk: tag and `ByteLen`. -/
def readSPK0 (d : List Nat) (p : Nat) : Option (SPK0 × Nat) :=
  match readMagic d tagSPK0 p with
  | none => none
  | some p1 =>
    match readByteLen d p1 with
    | none => none
    | some (bl, p2) => some (⟨bl⟩, p2)

/-- chunks.rs `SIDX`: the package metadata chunk. -/
structure SIDX where
  byte_len : ByteLen
  package_name : List Nat
  package_id : List Nat
  major_version : Nat
  minor_version : Nat
  patch_version : Nat
  package_type : PackageType
  unknown_b : List Nat
deriving DecidableEq, Repr

/-- Decode an `SIDX` chunk: tag, `ByteLen`, 29-byte name field, 3-byte
identifier field, three version bytes, a `PackageType` byte and 12
reserved bytes. -/
def readSIDX (d : List Nat) (p : Nat) : Option (SIDX × Nat) :=
  match readMagic d tagSIDX p with
  | none => none
  | some p1 =>
    match readByteLen d p1 with
    | none => none
    | some (bl, p2) =>
      match readBytes d 29 p2 with
      | none => none
      | some (nm, p3) =>
        match readBytes d 3 p3 with
        | none => none
        | some (pid, p4) =>
          match readByte d p4 with
          | none => none
          | some (maj, p5) =>
            match readByte d p5 with
            | none => none
            | some (mnr, p6) =>
              match readByte d p6 with
              | none => none
              | some (pat, p7) =>
                match readPackageType d p7 with
                | none => none
                | some (ty, p8) =>
                  match readBytes d 12 p8 with
                  | none => none
                  | some (ub, p9) =>
                    some (⟨bl, nm, pid, maj, mnr, pat, ty, ub⟩, p9)

/-- chunks.rs `STRS`: the string table chunk. -/
structure STRS where
  byte_len : Nat
  string_data : List Nat
deriving DecidableEq, Repr

/-- Decode an `STRS` chunk: tag, 32-bit byte length, then exactly that many
bytes of raw string storage. -/
def readSTRS (d : List Nat) (p : Nat) : Option (STRS × Nat) :=
  match readMagic d tagSTRS p with
  | none => none
  | some p1 =>
    match readU32 d p1 with
    | none => none
    | some (n, p2) =>
      match readBytes d n p2 with
      | none => none
      | some (bs, p3) => some (⟨n, bs⟩, p3)

/-- chunks.rs `FINF`: the narrow (32-bit) file-entry record. The filename is
the raw NUL-terminated byte string fetched through the pointer excursion. -/
structure FINF where
  byte_len : Nat
  filename : List Nat
  file_size : Nat
  data_offset : Nat
  data_size : Nat
  mode : Nat
  data_hmac : List Nat
  data_md5 : List Nat
deriving DecidableEq, Repr

/-- chunks.rs `FI64`: the wide (64-bit) file-entry record. -/
structure FI64 where
  byte_len : Nat
  filename : List Nat
  file_size : Nat
  data_offset : Nat
  data_size : Nat
  mode : Nat
  data_hmac : List Nat
  data_md5 : List Nat
deriving DecidableEq, Repr

/-- Decode a `FINF` chunk given the string-table base passed by the caller:
tag, 32-bit length, then a `FilePtr32` with `restore_position` (read the
32-bit pointer, fetch the NUL-terminated name at `strsBase + ptr` — a u64
sum — and continue right after the pointer bytes, which the `temp` field
re-consumes), then sizes, mode, padding and the two digests. -/
def readFINF (d : List Nat) (strsBase : Nat) (p : Nat) : Option (FINF × Nat) :=
  match readMagic d tagFINF p with
  | none => none
  | some p1 =>
    match readU32 d p1 with
    | none => none
    | some (bl, p2) =>
      match readU32 d p2 with
      | none => none
      | some (ptr, p3) =>
        match readNullString d (wrap64 (strsBase + ptr)) with
        | none => none
        | some (nm, _) =>
          match readU32 d p3 with
          | none => none
          | some (fs, p4) =>
            match readU32 d p4 with
            | none => none
            | some (doff, p5) =>
              match readU32 d p5 with
              | none => none
              | some (dsz, p6) =>
                match readU16 d p6 with
                | none => none
                | some (md, p7) =>
                  match readBytes d 20 (p7 + 3) with
                  | none => none
                  | some (hm, p8) =>
                    match readBytes d 16 p8 with
                    | none => none
                    | some (m5, p9) =>
                      some (⟨bl, nm, fs, doff, dsz, md, hm, m5⟩, p9 + 3)

/-- Decode a `FI64` chunk: like `FINF` but the pointer and the three sizes
are 64-bit and the trailing padding is 7 bytes. -/
def readFI64 (d : List Nat) (strsBase : Nat) (p : Nat) : Option (FI64 × Nat) :=
  match readMagic d tagFI64 p with
  | none => none
  | some p1 =>
    match readU32 d p1 with
    | none => none
    | some (bl, p2) =>
      match readU64 d p2 with
      | none => none
      | some (ptr, p3) =>
        match readNullString d (wrap64 (strsBase + ptr)) with
        | none => none
        | some (nm, _) =>
          match readU64 d p3 with
          | none => none
          | some (fs, p4) =>
            match readU64 d p4 with
            | none => none
            | some (doff, p5) =>
              match readU64 d p5 with
              | none => none
              | some (dsz, p6) =>
                match readU16 d p6 with
                | none => none
                | some (md, p7) =>
                  match readBytes d 20 (p7 + 3) with
                  | none => none
                  | some (hm, p8) =>
                    match readBytes d 16 p8 with
                    | none => none
                    | some (m5, p9) =>
                      some (⟨bl, nm, fs, doff, dsz, md, hm, m5⟩, p9 + 7)

/-- chunks.rs `FEND`: the file-list terminator. -/
structure FEND where
  byte_len : Nat
deriving DecidableEq, Repr

/-- Decode a `FEND` chunk: tag and a 32-bit length that is asserted to be
zero; any nonzero value is a decode failure. -/
def readFEND (d : List Nat) (p : Nat) : Option (FEND × Nat) :=
  match readMagic d tagFEND p with
  | none => none
  | some p1 =>
    match readU32 d p1 with
    | none => none
    | some (v, p2) => if v = 0 then some (⟨v⟩, p2) else none

/-- chunks.rs `SDAT`: the data-segment header. -/
structure SDAT where
  byte_len : ByteLen
deriving DecidableEq, Repr

/-- chunks.rs `SDAT::byte_len`. -/
def SDAT.byte_len_val (x : SDAT) : Nat := x.byte_len.byte_len

/-- chunks.rs `SDAT::header_size`. -/
def SDAT.header_size (x : SDAT) : Nat := x.byte_len.header_size

/-- Decode an `SDAT` chunk: tag and `ByteLen`. -/
def readSDAT (d : List Nat) (p : Nat) : Option (SDAT × Nat) :=
  match readMagic d tagSDAT p with
  | none => none
  | some p1 =>
    match readByteLen d p1 with
    | none => none
    | some (bl, p2) => some (⟨bl⟩, p2)

/-- chunks.rs `SZ64`: the auxiliary record (tag, 32-bit length, 8-byte
payload of unknown meaning). -/
structure SZ64 where
  byte_len : Nat
  unknown : Nat
deriving DecidableEq, Repr

/-- Decode an `SZ64` chunk. -/
def readSZ64 (d : List Nat) (p : Nat) : Option (SZ64 × Nat) :=
  match readMagic d tagSZ64 p with
  | none => none
  | some p1 =>
    match readU32 d p1 with
    | none => none
    | some (v, p2) =>
      match readU64 d p2 with
      | none => none
      | some (u, p3) => some (⟨v, u⟩, p3)

/-- chunks.rs `FileInfo`: the sum of the two file-entry widths and the
terminator. -/
inductive FileInfo
  | FINF (f : chunks.FINF)
  | FI64 (f : chunks.FI64)
  | FEND (e : chunks.FEND)
deriving DecidableEq, Repr

/-- Decode a `FileInfo`: binrw tries the variants in declaration order,
rewinding the reader between attempts. -/
def readFileInfo (d : List Nat) (strsBase : Nat) (p : Nat) :
    Option (FileInfo × Nat) :=
  match readFINF d strsBase p with
  | some (f, p1) => some (.FINF f, p1)
  | none =>
    match readFI64 d strsBase p with
    | some (f, p1) => some (.FI64 f, p1)
    | none =>
      match readFEND d p with
      | some (e, p1) => some (.FEND e, p1)
      | none => none

/-- chunks.rs `TryFrom<FileInfo> for FI64`: a narrow entry is zero-widened
field by field, a wide entry passes through, and the terminator is an
error. -/
def tryFromFileInfo : FileInfo → Except String FI64
  | .FINF f =>
      .ok ⟨f.byte_len, f.filename, f.file_size, f.data_offset, f.data_size,
        f.mode, f.data_hmac, f.data_md5⟩
  | .FI64 f => .ok f
  | .FEND _ => .error "FEND"

end chunks

/-- Is `b` a UTF-8 continuation byte (0x80..0xbf)? -/
def isCont (b : Nat) : Bool := decide (0x80 ≤ b ∧ b ≤ 0xbf)

/-- Strict UTF-8 decoding of a byte list, the model of `str::from_utf8`
followed by `chars` (used via `CStr::to_str` for the package name); any
ill-formed sequence is a failure. -/
def utf8Decode : List Nat → Option (List Char)
  | [] => some []
  | b :: rest =>
    if b < 0x80 then
      match utf8Decode rest with
      | none => none
      | some cs => some (Char.ofNat b :: cs)
    else if 0xc2 ≤ b ∧ b ≤ 0xdf then
      match rest with
      | [] => none
      | c :: rest2 =>
        if isCont c then
          match utf8Decode rest2 with
          | none => none
          | some cs => some (Char.ofNat ((b - 0xc0) * 64 + (c - 0x80)) :: cs)
        else none
    else if 0xe0 ≤ b ∧ b ≤ 0xef then
      match rest with
      | [] => none
      | c :: rest2 =>
        if (if b = 0xe0 then decide (0xa0 ≤ c ∧ c ≤ 0xbf)
            else if b = 0xed then decide (0x80 ≤ c ∧ c ≤ 0x9f)
            else isCont c) then
          match rest2 with
          | [] => none
          | e :: rest3 =>
            if isCont e then
              match utf8Decode rest3 with
              | none => none
              | some cs =>
                some (Char.ofNat ((b - 0xe0) * 4096 + (c - 0x80) * 64 + (e - 0x80)) :: cs)
            else none
        else none
    else if 0xf0 ≤ b ∧ b ≤ 0xf4 then
      match rest with
      | [] => none
      | c :: rest2 =>
        if (if b = 0xf0 then decide (0x90 ≤ c ∧ c ≤ 0xbf)
            else if b = 0xf4 then decide (0x80 ≤ c ∧ c ≤ 0x8f)
            else isCont c) then
          match rest2 with
          | [] => none
          | e :: rest3 =>
            if isCont e then
              match rest3 with
              | [] => none
              | g :: rest4 =>
                if isCont g then
                  match utf8Decode rest4 with
                  | none => none
                  | some cs =>
                    some (Char.ofNat ((b - 0xf0) * 262144 + (c - 0x80) * 4096 +
                      (e - 0x80) * 64 + (g - 0x80)) :: cs)
                else none
            else none
        else none
    else none

/-- The U+FFFD replacement character. -/
def repChar : Char := Char.ofNat 0xfffd

/-- Lossy UTF-8 decoding of a byte list, the model of binrw's `NullString`
`Display` implementation (used by `filename.to_string()` in spk.rs): each
maximal ill-formed subsequence becomes one replacement character, resuming
at the first byte that does not continue the attempted sequence. -/
def utf8Lossy : List Nat → List Char
  | [] => []
  | b :: rest =>
    if b < 0x80 then Char.ofNat b :: utf8Lossy rest
    else if 0xc2 ≤ b ∧ b ≤ 0xdf then
      match rest with
      | [] => [repChar]
      | c :: rest2 =>
        if isCont c then Char.ofNat ((b - 0xc0) * 64 + (c - 0x80)) :: utf8Lossy rest2
        else repChar :: utf8Lossy (c :: rest2)
    else if 0xe0 ≤ b ∧ b ≤ 0xef then
      match rest with
      | [] => [repChar]
      | c :: rest2 =>
        if (if b = 0xe0 then decide (0xa0 ≤ c ∧ c ≤ 0xbf)
            else if b = 0xed then decide (0x80 ≤ c ∧ c ≤ 0x9f)
            else isCont c) then
          match rest2 with
          | [] => [repChar]
          | e :: rest3 =>
            if isCont e then
              Char.ofNat ((b - 0xe0) * 4096 + (c - 0x80) * 64 + (e - 0x80)) :: utf8Lossy rest3
            else repChar :: utf8Lossy (e :: rest3)
        else repChar :: utf8Lossy (c :: rest2)
    else if 0xf0 ≤ b ∧ b ≤ 0xf4 then
      match rest with
      | [] => [repChar]
      | c :: rest2 =>
        if (if b = 0xf0 then decide (0x90 ≤ c ∧ c ≤ 0xbf)
            else if b = 0xf4 then decide (0x80 ≤ c ∧ c ≤ 0x8f)
            else isCont c) then
          match rest2 with
          | [] => [repChar]
          | e :: rest3 =>
            if isCont e then
              match rest3 with
              | [] => [repChar]
              | g :: rest4 =>
                if isCont g then
                  Char.ofNat ((b - 0xf0) * 262144 + (c - 0x80) * 4096 +
                    (e - 0x80) * 64 + (g - 0x80)) :: utf8Lossy rest4
                else repChar :: utf8Lossy (g :: rest4)
            else repChar :: utf8Lossy (e :: rest3)
        else repChar :: utf8Lossy (c :: rest2)
    else repChar :: utf8Lossy rest

namespace spk

/-- The failure kinds of `SPKFile::parse` that our embedding distinguishes
(spk.rs `OpenError`), plus two artifacts: `unwrapFail` models the panic of
the `.unwrap()` at the record-normalization site, and `fuelOut` is the
exhaustion of the loop fuel (unreachable for any input the real loop
handles, since every iteration advances the cursor). -/
inductive Err
  | parseFail
  | cstr
  | utf8
  | unwrapFail
  | fuelOut
deriving DecidableEq, Repr

/-- spk.rs `FileInfo`: the public per-file record of the decoded index. -/
structure FileInfo where
  name : String
  size : Nat
  offset : Nat
  data_size : Nat
  hmac : List Nat
  md5 : List Nat
  mode : Nat
deriving DecidableEq, Repr

/-- spk.rs `Package`: the public per-package record of the decoded index. -/
structure Package where
  name : String
  version : Nat × Nat × Nat
  type_ : chunks.PackageType
  files : List FileInfo
deriving DecidableEq, Repr

/-- Build the public file record from a canonical wide entry
(spk.rs lines 106 to 114); `filename.to_string()` on a binrw `NullString`
is a lossy UTF-8 conversion, and the data offset is still
package-relative at this point. -/
def mkFileInfo (f : chunks.FI64) : FileInfo :=
  { name := String.mk (utf8Lossy f.filename)
    size := f.file_size
    offset := f.data_offset
    data_size := f.data_size
    hmac := f.data_hmac
    md5 := f.data_md5
    mode := f.mode }

/-- The file-entry loop of `SPKFile::parse` (spk.rs lines 98 to 115): read
one `FileInfo` record, stop on the terminator, otherwise normalize it to
the wide shape (the `.unwrap()` there panics if that fails) and accumulate
the public record. -/
def parseFiles (d : List Nat) (strsBase : Nat) :
    Nat → List FileInfo → Nat → Except Err (List FileInfo × Nat)
  | 0, _, _ => .error .fuelOut
  | fuel + 1, acc, p =>
    match chunks.readFileInfo d strsBase p with
    | none => .error .parseFail
    | some (.FEND _, p1) => .ok (acc.reverse, p1)
    | some (fi, p1) =>
      match chunks.tryFromFileInfo fi with
      | .error _ => .error .unwrapFail
      | .ok f => parseFiles d strsBase fuel (mkFileInfo f :: acc) p1

/-- Specification predicate used only to state theorems about the
file-entry loop: `namesChained d b p files q` says the stream holds, at
the consecutive chained positions starting at `p`, exactly one record
per collected file — each a narrow record whose 32-bit pointer field
(stored 8 bytes into the record) resolves the NUL-terminated name at
address `b + ptr`, or a wide record with a 64-bit pointer field and the
same base — each file being the public record of the normalized entry,
and finally the terminator, ending at `q`. Because every position is
chained from `p` and every reader is a function, the pointer in each
step is the one actually stored in that entry's record. -/
def namesChained (d : List Nat) (b : Nat) : Nat → List FileInfo → Nat → Prop
  | p, [], q => ∃ e, chunks.readFEND d p = some (e, q)
  | p, f :: rest, q =>
      ∃ p1 wide ptr r,
        ((∃ g, chunks.readFINF d b p = some (g, p1) ∧
            chunks.tryFromFileInfo (.FINF g) = .ok wide ∧
            readU32 d (p + 8) = some (ptr, p + 12) ∧
            readNullString d (wrap64 (b + ptr)) = some (g.filename, r) ∧
            f.name = String.mk (utf8Lossy g.filename)) ∨
         (∃ g, chunks.readFI64 d b p = some (g, p1) ∧
            chunks.tryFromFileInfo (.FI64 g) = .ok wide ∧
            readU64 d (p + 8) = some (ptr, p + 16) ∧
            readNullString d (wrap64 (b + ptr)) = some (g.filename, r) ∧
            f.name = String.mk (utf8Lossy g.filename))) ∧
        f = mkFileInfo wide ∧
        namesChained d b p1 rest q

/-- spk.rs line 94: `let _ = chunks::SZ64::read_le(&mut reader);` — the
auxiliary record is probed and its result discarded; on failure binrw
restores the cursor, so the position is unchanged. -/
def sz64Probe (d : List Nat) (p : Nat) : Nat :=
  match chunks.readSZ64 d p with
  | some (_, p1) => p1
  | none => p

/-- `CStr::from_bytes_until_nul`: the bytes before the first NUL, failing
when the field contains no NUL byte at all. -/
def cstrFromBytesUntilNul (bs : List Nat) : Option (List Nat) :=
  match takeUntilNul bs with
  | none => none
  | some (pre, _) => some pre

/-- spk.rs lines 118 to 120: once the data-segment header read at position
`sdatPos` is known, every collected entry's package-relative offset is
rebased by `sdatPos + sdat.header_size()` (u64 arithmetic, hence the
wrap). -/
def finalizeFiles (sdatPos : Nat) (sdat : chunks.SDAT) (files : List FileInfo) :
    List FileInfo :=
  files.map fun f => { f with offset := wrap64 (f.offset + (sdatPos + sdat.header_size)) }

/-- spk.rs lines 122 to 129: build the `Package` value from the metadata
chunk and the finalized file list. The name is the 29-byte field cut at
its first NUL (`CStr::from_bytes_until_nul`, an error when no NUL exists)
and strictly UTF-8 decoded (`to_str`); version and type are copied. The
3-byte `package_id` field and the reserved bytes of the metadata are not
consulted. -/
def packageOfSIDX (sidx : chunks.SIDX) (files : List FileInfo) :
    Except Err Package :=
  match cstrFromBytesUntilNul sidx.package_name with
  | none => .error .cstr
  | some nmB =>
    match utf8Decode nmB with
    | none => .error .utf8
    | some cs =>
      .ok { name := String.mk cs
            version := (sidx.major_version, sidx.minor_version, sidx.patch_version)
            type_ := sidx.package_type
            files := files }

/-- The body of one iteration of the package loop of `SPKFile::parse`
(spk.rs lines 90 to 130), up to but excluding the re-synchronizing seek:
envelope (whose start position `p` is remembered), metadata, tolerated
auxiliary-record probe, string table (whose start position feeds the
pointer base `pos + 8`), file entries until the terminator, data-segment
header and offset finalization, then the package value with its name cut
at the first NUL of the 29-byte field and strictly UTF-8 decoded. Returns
the package, the envelope start position, the envelope and the final
cursor. -/
def parsePackageBody (d : List Nat) (p : Nat) :
    Except Err (Package × Nat × chunks.SPK0 × Nat) :=
  match chunks.readSPK0 d p with
  | none => .error .parseFail
  | some (spk0, p1) =>
    match chunks.readSIDX d p1 with
    | none => .error .parseFail
    | some (sidx, p2) =>
      match chunks.readSTRS d (sz64Probe d p2) with
      | none => .error .parseFail
      | some (_, p4) =>
        match parseFiles d (wrap64 (sz64Probe d p2 + 8)) (d.length + 1) [] p4 with
        | .error e => .error e
        | .ok (files, p5) =>
          match chunks.readSDAT d p5 with
          | none => .error .parseFail
          | some (sdat, p6) =>
            match packageOfSIDX sidx (finalizeFiles p5 sdat files) with
            | .error e => .error e
            | .ok pkg => .ok (pkg, p, spk0, p6)

/-- One full iteration of the package loop: decode the package, then seek
unconditionally to the envelope start plus `offset_to_next`
(spk.rs lines 132 to 134). -/
def parseOnePackage (d : List Nat) (p : Nat) : Except Err (Package × Nat) :=
  match parsePackageBody d p with
  | .error e => .error e
  | .ok (pkg, p0, spk0, _) => .ok (pkg, wrap64 (p0 + spk0.offset_to_next))

/-- The package loop of `SPKFile::parse`, run once per declared package. -/
def parseLoop (d : List Nat) : Nat → List Package → Nat → Except Err (List Package)
  | 0, acc, _ => .ok acc.reverse
  | n + 1, acc, p =>
    match parseOnePackage d p with
    | .error e => .error e
    | .ok (pkg, p1) => parseLoop d n (pkg :: acc) p1

/-- spk.rs `SPKFile::parse`: container header, then the package loop;
the result is the decoded package index. -/
def parse (d : List Nat) : Except Err (List Package) :=
  match chunks.readSPKS d 0 with
  | none => .error .parseFail
  | some (spks, p1) => parseLoop d spks.chunk_count [] p1

end spk

/-- A run of `n` zero bytes. -/
def zeros (n : Nat) : List Nat := List.replicate n 0

/-- A 29-byte package-name field holding "Pkg" padded with NULs. -/
def name29 : List Nat := [0x50, 0x6b, 0x67] ++ zeros 26

/-- Demo string-table storage: "a.txt" NUL, then the non-UTF-8 byte 0xff
NUL (table offsets 0 and 6). -/
def strsData : List Nat := [0x61, 0x2e, 0x74, 0x78, 0x74, 0, 0xff, 0]

/-- A synthetic single-package container, parameterized by the 3-byte
identifier field, the 29-byte name field, the 4-byte filename pointer of
its one narrow file entry and the 4-byte terminator length. Layout:
container header (count 1) at 0, envelope at 12 (declared span 0), package
metadata at 20, no auxiliary record, string table at 76 (8 bytes of
storage at 84), file entry at 92, terminator at 160, data-segment header
at 168 (legacy form, 3 data bytes). -/
def demoFile (idB nameF ptrB fendB : List Nat) : List Nat :=
  tagSPKS ++ [0, 0, 0, 0] ++ [1, 0, 0, 0] ++
  tagSPK0 ++ [0, 0, 0, 0] ++
  tagSIDX ++ [0, 0, 0, 0] ++ nameF ++ idB ++ [1, 2, 3, 1] ++ zeros 12 ++
  tagSTRS ++ [8, 0, 0, 0] ++ strsData ++
  tagFINF ++ [0, 0, 0, 0] ++ ptrB ++ [3, 0, 0, 0] ++ [5, 0, 0, 0] ++ [3, 0, 0, 0] ++
    [0xa4, 1] ++ zeros 3 ++ zeros 20 ++ zeros 16 ++ zeros 3 ++
  tagFEND ++ fendB ++
  tagSDAT ++ [3, 0, 0, 0] ++ [1, 2, 3]

/-- The well-formed demo container: file "a.txt", package "Pkg". -/
def demoBytes : List Nat := demoFile (zeros 3) name29 (zeros 4) (zeros 4)

/-- Demo container whose file entry points at the non-UTF-8 name bytes. -/
def demoBadName : List Nat := demoFile (zeros 3) name29 [6, 0, 0, 0] (zeros 4)

/-- Demo container whose terminator declares the nonzero length 1. -/
def demoBadFend : List Nat := demoFile (zeros 3) name29 (zeros 4) [1, 0, 0, 0]

/-- Demo container whose 29-byte name field contains no NUL at all. -/
def demoNoNulName : List Nat :=
  demoFile (zeros 3) (List.replicate 29 0x41) (zeros 4) (zeros 4)

/-- Demo container whose name field is "AB", NUL, "CD", then NUL padding. -/
def demoMidNulName : List Nat :=
  demoFile (zeros 3) ([0x41, 0x42, 0, 0x43, 0x44] ++ zeros 24) (zeros 4) (zeros 4)

/-- Demo container with an arbitrary 3-byte identifier field. -/
def demoId (a b c : Nat) : List Nat := demoFile [a, b, c] name29 (zeros 4) (zeros 4)

/-- The one file record the demo container decodes to: its final offset is
the data-segment header position 168, plus 8 for the legacy header form,
plus the stored package-relative offset 5. -/
def demoPkgFile : spk.FileInfo :=
  { name := "a.txt", size := 3, offset := 181, data_size := 3,
    hmac := zeros 20, md5 := zeros 16, mode := 420 }

/-- The package the demo container decodes to. -/
def demoPkg : spk.Package :=
  { name := "Pkg", version := (1, 2, 3), type_ := .Spike1, files := [demoPkgFile] }

theorem readByte_pos {d : List Nat} {b p p' : Nat}
    (h : readByte d p = some (b, p')) : p' = p + 1 := by
  unfold readByte at h
  split at h <;> simp_all

theorem readBytes_pos {d : List Nat} :
    ∀ {n p bs p'}, readBytes d n p = some (bs, p') → p' = p + n := by
  intro n
  induction n with
  | zero => intro p bs p' h; simp [readBytes] at h; omega
  | succ n ih =>
    intro p bs p' h
    unfold readBytes at h
    split at h
    · exact absurd h (by simp)
    · rename_i b p1 hb
      split at h
      · exact absurd h (by simp)
      · rename_i bs2 p2 hbs
        have h1 := readByte_pos hb
        have h2 := ih hbs
        simp only [Option.some.injEq, Prod.mk.injEq] at h
        omega

theorem readU16_pos {d : List Nat} {v p p' : Nat}
    (h : readU16 d p = some (v, p')) : p' = p + 2 := by
  unfold readU16 at h
  split at h
  · exact absurd h (by simp)
  · rename_i bs p1 hbs
    simp only [Option.some.injEq, Prod.mk.injEq] at h
    have := readBytes_pos hbs
    omega

theorem readU32_pos {d : List Nat} {v p p' : Nat}
    (h : readU32 d p = some (v, p')) : p' = p + 4 := by
  unfold readU32 at h
  split at h
  · exact absurd h (by simp)
  · rename_i bs p1 hbs
    simp only [Option.some.injEq, Prod.mk.injEq] at h
    have := readBytes_pos hbs
    omega

theorem readU64_pos {d : List Nat} {v p p' : Nat}
    (h : readU64 d p = some (v, p')) : p' = p + 8 := by
  unfold readU64 at h
  split at h
  · exact absurd h (by simp)
  · rename_i bs p1 hbs
    simp only [Option.some.injEq, Prod.mk.injEq] at h
    have := readBytes_pos hbs
    omega

theorem readMagic_pos {d tag : List Nat} {p p' : Nat}
    (h : readMagic d tag p = some p') : p' = p + tag.length := by
  unfold readMagic at h
  split at h
  · exact absurd h (by simp)
  · rename_i bs p1 hbs
    split at h
    · simp only [Option.some.injEq] at h
      have := readBytes_pos hbs
      omega
    · exact absurd h (by simp)

theorem readByteLen_pos {d : List Nat} {bl : chunks.ByteLen} {p p' : Nat}
    (h : chunks.readByteLen d p = some (bl, p')) :
    p' + 4 = p + bl.header_size := by
  unfold chunks.readByteLen at h
  split at h
  · exact absurd h (by simp)
  · rename_i v p1 hv
    have h1 := readU32_pos hv
    split at h
    · split at h
      · rename_i n p2 hn
        have h2 := readU64_pos hn
        simp only [Option.some.injEq, Prod.mk.injEq] at h
        obtain ⟨hbl, hp⟩ := h
        subst hbl
        simp [chunks.ByteLen.header_size]
        omega
      · simp only [Option.some.injEq, Prod.mk.injEq] at h
        obtain ⟨hbl, hp⟩ := h
        subst hbl
        simp [chunks.ByteLen.header_size]
        omega
    · simp only [Option.some.injEq, Prod.mk.injEq] at h
      obtain ⟨hbl, hp⟩ := h
      subst hbl
      simp [chunks.ByteLen.header_size]
      omega

theorem readSPK0_pos {d : List Nat} {x : chunks.SPK0} {p p' : Nat}
    (h : chunks.readSPK0 d p = some (x, p')) :
    p' = p + x.byte_len.header_size := by
  unfold chunks.readSPK0 at h
  split at h
  · exact absurd h (by simp)
  · rename_i p1 hm
    split at h
    · exact absurd h (by simp)
    · rename_i bl p2 hbl
      have h1 := readMagic_pos hm
      have h2 := readByteLen_pos hbl
      simp only [Option.some.injEq, Prod.mk.injEq] at h
      obtain ⟨hx, hp⟩ := h
      subst hx
      simp only [tagSPK0, List.length_cons, List.length_nil] at h1
      show p' = p + bl.header_size
      omega

theorem wrap64_eq_of_lt {n : Nat} (h : n < 2 ^ 64) : wrap64 n = n :=
  Nat.mod_eq_of_lt h

theorem wrap64_add_left (a b : Nat) : wrap64 (wrap64 a + b) = wrap64 (a + b) := by
  unfold wrap64
  exact Nat.mod_add_mod a (2 ^ 64) b

/-- Claim C2: for every decoded ByteLength value, header_size() is 8 for
the legacy form and 16 for the extended form, byte_len() is the stored
value, and header size plus payload length is the distance from the start
of a chunk's tag to the start of the next sibling chunk: decoding an
`SPK0` envelope that begins at position `p` consumes exactly
`header_size` bytes for tag and length fields, and the envelope's
`offset_to_next` (which the container decoder adds to `p` to reach the
next sibling) is that header size plus the payload length. -/
theorem C2_length_codec :
    (∀ n, (chunks.ByteLen.Old n).header_size = 8 ∧ (chunks.ByteLen.Old n).byte_len = n) ∧
    (∀ n, (chunks.ByteLen.New n).header_size = 16 ∧ (chunks.ByteLen.New n).byte_len = n) ∧
    (∀ x : chunks.SPK0,
      x.offset_to_next = wrap64 (x.byte_len.header_size + x.byte_len.byte_len)) ∧
    (∀ (d : List Nat) (p : Nat) (x : chunks.SPK0) (p' : Nat),
      chunks.readSPK0 d p = some (x, p') →
      p' = p + x.byte_len.header_size ∧
      (x.byte_len.header_size + x.byte_len.byte_len < 2 ^ 64 →
        p + x.offset_to_next = p' + x.byte_len.byte_len)) := by
  refine ⟨fun n => ⟨rfl, rfl⟩, fun n => ⟨rfl, rfl⟩, fun x => rfl, ?_⟩
  intro d p x p' h
  have h1 := readSPK0_pos h
  refine ⟨h1, fun hlt => ?_⟩
  rw [chunks.SPK0.offset_to_next, wrap64_eq_of_lt hlt]
  omega

/-- Witness for C2 at concrete inputs: a legacy-form envelope declaring
payload length 5 (header consumed up to position 8, next sibling 13
bytes from the tag) and an extended-form envelope declaring payload
length 2 (header consumed up to position 16). -/
theorem C2_length_codec_witness :
    ((8 : Nat) = 0 + (chunks.SPK0.mk (chunks.ByteLen.Old 5)).byte_len.header_size ∧
      (0 + (chunks.SPK0.mk (chunks.ByteLen.Old 5)).offset_to_next =
        8 + (chunks.SPK0.mk (chunks.ByteLen.Old 5)).byte_len.byte_len)) ∧
    ((16 : Nat) = 0 + (chunks.SPK0.mk (chunks.ByteLen.New 2)).byte_len.header_size ∧
      (0 + (chunks.SPK0.mk (chunks.ByteLen.New 2)).offset_to_next =
        16 + (chunks.SPK0.mk (chunks.ByteLen.New 2)).byte_len.byte_len)) := by
  constructor
  · have h := C2_length_codec.2.2.2
      [0x53, 0x50, 0x4b, 0x30, 5, 0, 0, 0, 9, 9, 9, 9, 9] 0
      (chunks.SPK0.mk (chunks.ByteLen.Old 5)) 8 (by rfl)
    exact ⟨h.1, h.2 (by decide)⟩
  · have h := C2_length_codec.2.2.2
      [0x53, 0x50, 0x4b, 0x30, 0xff, 0xff, 0xff, 0xff, 2, 0, 0, 0, 0, 0, 0, 0, 7, 7] 0
      (chunks.SPK0.mk (chunks.ByteLen.New 2)) 16 (by rfl)
    exact ⟨h.1, h.2 (by decide)⟩

/-- Claim C6: record normalization is pass-through for wide entries and
lossless for narrow entries: a wide `FI64` normalizes to itself, every
narrow `FINF` normalizes to the wide entry with the same field values
(zero-widening a natural number is the identity, so nothing is
truncated), including the entry whose numeric fields all hold the
maximum representable narrow values. -/
theorem C6_normalization :
    (∀ x : chunks.FI64, chunks.tryFromFileInfo (.FI64 x) = .ok x) ∧
    (∀ f : chunks.FINF, chunks.tryFromFileInfo (.FINF f) =
      .ok { byte_len := f.byte_len, filename := f.filename,
            file_size := f.file_size, data_offset := f.data_offset,
            data_size := f.data_size, mode := f.mode,
            data_hmac := f.data_hmac, data_md5 := f.data_md5 }) ∧
    chunks.tryFromFileInfo (.FINF
      { byte_len := 0xffffffff, filename := [0x61],
        file_size := 0xffffffff, data_offset := 0xffffffff,
        data_size := 0xffffffff, mode := 0xffff,
        data_hmac := zeros 20, data_md5 := zeros 16 }) =
      .ok { byte_len := 0xffffffff, filename := [0x61],
            file_size := 0xffffffff, data_offset := 0xffffffff,
            data_size := 0xffffffff, mode := 0xffff,
            data_hmac := zeros 20, data_md5 := zeros 16 } :=
  ⟨fun _ => rfl, fun _ => rfl, rfl⟩

/-- Claim C5: a failed probe of the Auxiliary Record (SZ64) is tolerated:
the probe leaves the decode cursor unchanged (the failure is swallowed,
not propagated), and a package without any SZ64 chunk — on which the
probe concretely fails right after the Package Metadata, at position
76 — still decodes, with the container decode succeeding end to end. -/
theorem C5_sz64_tolerated :
    (∀ (d : List Nat) (p : Nat), chunks.readSZ64 d p = none → spk.sz64Probe d p = p) ∧
    chunks.readSZ64 demoBytes 76 = none ∧
    spk.parse demoBytes = .ok [demoPkg] := by
  refine ⟨?_, ?_, ?_⟩
  · intro d p h
    unfold spk.sz64Probe
    rw [h]
  · rfl
  · rfl

/-- Witness for C5: the tolerated-probe property applied at the demo
container's probe point. -/
theorem C5_sz64_tolerated_witness : spk.sz64Probe demoBytes 76 = 76 :=
  C5_sz64_tolerated.1 demoBytes 76 (by rfl)

/-- Claim C4, counterexample: in the demo container the package envelope
at position 12 declares span 0, so the re-synchronizing seek target is
wrap64 (12 + 8) = 20, strictly before the cursor position 176 reached at
the end of the package grammar — a backward seek — yet the container
decode succeeds instead of failing. -/
theorem C4_counterexample :
    spk.parsePackageBody demoBytes 12 =
      .ok (demoPkg, 12, chunks.SPK0.mk (chunks.ByteLen.Old 0), 176) ∧
    wrap64 (12 + (chunks.SPK0.mk (chunks.ByteLen.Old 0)).offset_to_next) = 20 ∧
    (20 : Nat) < 176 ∧
    spk.parse demoBytes = .ok [demoPkg] :=
  ⟨rfl, rfl, by omega, rfl⟩

/-- Claim C4, amended: after each package the decoder seeks the cursor to
the package envelope's start position plus the envelope's declared span
(offset_to_next), unconditionally: whatever cursor position the package
grammar ended at, the loop continues at exactly that target, and a
backward or non-advancing target is not detected and does not by itself
cause a decode failure. -/
theorem C4_amended_reseek :
    ∀ (d : List Nat) (p : Nat) (pkg : spk.Package) (p0 : Nat)
      (x : chunks.SPK0) (pEnd : Nat),
      spk.parsePackageBody d p = .ok (pkg, p0, x, pEnd) →
      spk.parseOnePackage d p = .ok (pkg, wrap64 (p0 + x.offset_to_next)) := by
  intro d p pkg p0 x pEnd h
  unfold spk.parseOnePackage
  rw [h]

/-- Witness for C4's amended claim at the demo container: the loop
continues at wrap64 (12 + 8) = 20 even though the package grammar ended
at 176. -/
theorem C4_amended_reseek_witness :
    spk.parseOnePackage demoBytes 12 =
      .ok (demoPkg, wrap64 (12 + (chunks.SPK0.mk (chunks.ByteLen.Old 0)).offset_to_next)) :=
  C4_amended_reseek demoBytes 12 demoPkg 12 (chunks.SPK0.mk (chunks.ByteLen.Old 0)) 176 (by rfl)

/-- Claim C7, counterexample: two containers that differ only in the
3-byte identifier field of the Package Metadata chunk (bytes 65 66 67
versus 88 89 90 at positions 57 to 59) decode to the same package list,
so the decoded Package cannot carry the identifier field. -/
theorem C7_counterexample :
    spk.parse (demoId 65 66 67) = spk.parse (demoId 88 89 90) ∧
    demoId 65 66 67 ≠ demoId 88 89 90 := by
  constructor
  · rfl
  · decide

/-- Claim C7, amended: the decoded Package does not carry the 3-byte
identifier field: the package value is built from the metadata chunk's
name field, version bytes and type alone, so the identifier content can
neither change the output nor cause a parse failure; concretely, the demo
container decodes identically under different identifier bytes. -/
theorem C7_amended_id_discarded :
    (∀ (sidx sidx' : chunks.SIDX) (files : List spk.FileInfo),
      sidx.package_name = sidx'.package_name →
      sidx.major_version = sidx'.major_version →
      sidx.minor_version = sidx'.minor_version →
      sidx.patch_version = sidx'.patch_version →
      sidx.package_type = sidx'.package_type →
      spk.packageOfSIDX sidx files = spk.packageOfSIDX sidx' files) ∧
    spk.parse (demoId 65 66 67) = .ok [demoPkg] ∧
    spk.parse (demoId 0 0 0) = .ok [demoPkg] := by
  refine ⟨?_, ?_, ?_⟩
  · intro sidx sidx' files h1 h2 h3 h4 h5
    unfold spk.packageOfSIDX
    rw [h1, h2, h3, h4, h5]
  · rfl
  · rfl

/-- Witness for C7's amended claim: two metadata chunks differing only in
the identifier field build the same package value. -/
theorem C7_amended_id_discarded_witness :
    spk.packageOfSIDX
      (chunks.SIDX.mk (chunks.ByteLen.Old 0) name29 [65, 66, 67] 1 2 3 .Spike1 (zeros 12)) [] =
    spk.packageOfSIDX
      (chunks.SIDX.mk (chunks.ByteLen.Old 0) name29 [88, 89, 90] 1 2 3 .Spike1 (zeros 12)) [] :=
  C7_amended_id_discarded.1 _ _ [] rfl rfl rfl rfl rfl

theorem readMagic_bytes {d t : List Nat} {p p' : Nat}
    (h : readMagic d t p = some p') : readBytes d t.length p = some (t, p') := by
  unfold readMagic at h
  split at h
  · exact absurd h (by simp)
  · rename_i bs p1 hbs
    split at h
    · rename_i hb
      simp only [Option.some.injEq] at h
      rw [hbs, hb, h]
    · exact absurd h (by simp)

theorem readMagic_ne {d t t' : List Nat} {p p' : Nat}
    (h : readMagic d t p = some p') (hlen : t'.length = t.length)
    (hne : t' ≠ t) : readMagic d t' p = none := by
  have hb := readMagic_bytes h
  unfold readMagic
  rw [hlen, hb]
  simp [Ne.symm hne]

/-- Claim C8: a Terminator chunk whose 32-bit length field is nonzero is a
structural decode failure for every nonzero value: wherever the stream
holds the FEND tag followed by a nonzero 32-bit length, the FEND decode
fails, the whole FileInfo dispatch fails (the other variants' tags cannot
match), the file-entry loop fails, and concretely a container with such a
terminator fails to decode instead of being accepted. -/
theorem C8_terminator_nonzero :
    (∀ (d : List Nat) (p p1 n p2 : Nat),
      readMagic d tagFEND p = some p1 → readU32 d p1 = some (n, p2) → n ≠ 0 →
      chunks.readFEND d p = none ∧
      (∀ b, chunks.readFileInfo d b p = none) ∧
      (∀ b fuel acc, spk.parseFiles d b (fuel + 1) acc p = .error spk.Err.parseFail)) ∧
    spk.parse demoBadFend = .error spk.Err.parseFail := by
  constructor
  · intro d p p1 n p2 hm hu hn
    have hfend : chunks.readFEND d p = none := by
      unfold chunks.readFEND
      simp [hm, hu, hn]
    have hfinf : ∀ b, chunks.readFINF d b p = none := by
      intro b
      have : readMagic d tagFINF p = none := readMagic_ne hm (by rfl) (by decide)
      unfold chunks.readFINF
      rw [this]
    have hfi64 : ∀ b, chunks.readFI64 d b p = none := by
      intro b
      have : readMagic d tagFI64 p = none := readMagic_ne hm (by rfl) (by decide)
      unfold chunks.readFI64
      rw [this]
    have hfi : ∀ b, chunks.readFileInfo d b p = none := by
      intro b
      unfold chunks.readFileInfo
      simp [hfinf b, hfi64 b, hfend]
    refine ⟨hfend, hfi, ?_⟩
    intro b fuel acc
    unfold spk.parseFiles
    simp [hfi b]
  · rfl

/-- Witness for C8 at the demo container with terminator length 1 at
position 160. -/
theorem C8_terminator_nonzero_witness :
    chunks.readFEND demoBadFend 160 = none ∧
    chunks.readFileInfo demoBadFend 84 160 = none ∧
    spk.parseFiles demoBadFend 84 1 [] 160 = .error spk.Err.parseFail := by
  have h := C8_terminator_nonzero.1 demoBadFend 160 164 1 168 (by rfl) (by rfl) (by decide)
  exact ⟨h.1, h.2.1 84, h.2.2 84 0 []⟩

theorem takeUntilNul_none :
    ∀ (bs : List Nat), (∀ b ∈ bs, b % 256 ≠ 0) → takeUntilNul bs = none := by
  intro bs
  induction bs with
  | nil => intro _; rfl
  | cons b rest ih =>
    intro h
    unfold takeUntilNul
    rw [if_neg (h b (by simp)), ih (fun x hx => h x (by simp [hx]))]

/-- Claim C10: the 29-byte package name field is converted as a C string:
when it contains no NUL byte anywhere the conversion fails (and the demo
container with such a name field makes the whole container decode fail
with the C-string error), and when a NUL is present the name is cut at
the first NUL — the demo container whose name field is "AB", NUL, "CD",
NULs decodes to the package name "AB", not to a trailing-trimmed
"AB NUL CD". -/
theorem C10_package_name :
    (∀ bs : List Nat, (∀ b ∈ bs, b % 256 ≠ 0) → spk.cstrFromBytesUntilNul bs = none) ∧
    spk.parse demoNoNulName = .error spk.Err.cstr ∧
    spk.parse demoMidNulName = .ok [{ demoPkg with name := "AB" }] := by
  refine ⟨?_, ?_, ?_⟩
  · intro bs h
    unfold spk.cstrFromBytesUntilNul
    rw [takeUntilNul_none bs h]
  · rfl
  · rfl

/-- Witness for C10: the NUL-free byte list 65 66 67 fails the C-string
conversion. -/
theorem C10_package_name_witness : spk.cstrFromBytesUntilNul [65, 66, 67] = none :=
  C10_package_name.1 [65, 66, 67] (by decide)

theorem parseFiles_ne_unwrapFail (d : List Nat) (b : Nat) :
    ∀ (fuel : Nat) (acc : List spk.FileInfo) (p : Nat),
      spk.parseFiles d b fuel acc p ≠ .error spk.Err.unwrapFail := by
  intro fuel
  induction fuel with
  | zero =>
    intro acc p h
    unfold spk.parseFiles at h
    simp at h
  | succ fuel ih =>
    intro acc p h
    unfold spk.parseFiles at h
    split at h
    · simp at h
    · simp at h
    · rename_i fi p1 hfi hne
      cases fi with
      | FINF f =>
        simp only [chunks.tryFromFileInfo] at h
        exact ih _ _ h
      | FI64 f =>
        simp only [chunks.tryFromFileInfo] at h
        exact ih _ _ h
      | FEND e => exact hfi e rfl

theorem packageOfSIDX_ne_unwrapFail (sidx : chunks.SIDX) (files : List spk.FileInfo) :
    spk.packageOfSIDX sidx files ≠ .error spk.Err.unwrapFail := by
  intro h
  unfold spk.packageOfSIDX at h
  split at h
  · simp at h
  · split at h <;> simp at h

theorem parsePackageBody_ne_unwrapFail (d : List Nat) (p : Nat) :
    spk.parsePackageBody d p ≠ .error spk.Err.unwrapFail := by
  intro h
  unfold spk.parsePackageBody at h
  split at h
  · simp at h
  · split at h
    · simp at h
    · split at h
      · simp at h
      · split at h
        · rename_i e hfiles
          simp only [Except.error.injEq] at h
          rw [h] at hfiles
          exact parseFiles_ne_unwrapFail d _ _ _ _ hfiles
        · split at h
          · simp at h
          · split at h
            · rename_i e hpkg
              simp only [Except.error.injEq] at h
              rw [h] at hpkg
              exact packageOfSIDX_ne_unwrapFail _ _ hpkg
            · simp at h

theorem parseLoop_ne_unwrapFail (d : List Nat) :
    ∀ (n : Nat) (acc : List spk.Package) (p : Nat),
      spk.parseLoop d n acc p ≠ .error spk.Err.unwrapFail := by
  intro n
  induction n with
  | zero =>
    intro acc p h
    unfold spk.parseLoop at h
    simp at h
  | succ n ih =>
    intro acc p h
    unfold spk.parseLoop at h
    split at h
    · rename_i e hone
      simp only [Except.error.injEq] at h
      rw [h] at hone
      unfold spk.parseOnePackage at hone
      split at hone
      · rename_i e2 hbody
        simp only [Except.error.injEq] at hone
        rw [hone] at hbody
        exact parsePackageBody_ne_unwrapFail d _ hbody
      · simp at hone
    · exact ih _ _ h

/-- Claim C9: the record normalization at the conversion site of
`SPKFile::parse` never fails: every `FileInfo` value other than the
terminator converts successfully to the wide form, and — since the
terminator always exits the loop before the conversion — no input
whatsoever can make `parse` reach the panic of the `.unwrap()` at that
site (modelled by the distinguished error `unwrapFail`). -/
theorem C9_normalization_never_panics :
    (∀ fi : chunks.FileInfo, (∀ e : chunks.FEND, fi ≠ .FEND e) →
      ∃ f : chunks.FI64, chunks.tryFromFileInfo fi = .ok f) ∧
    (∀ d : List Nat, spk.parse d ≠ .error spk.Err.unwrapFail) := by
  constructor
  · intro fi h
    cases fi with
    | FINF f => exact ⟨_, rfl⟩
    | FI64 f => exact ⟨f, rfl⟩
    | FEND e => exact absurd rfl (h e)
  · intro d h
    unfold spk.parse at h
    split at h
    · simp at h
    · exact parseLoop_ne_unwrapFail d _ _ _ h

/-- Witness for C9: a concrete narrow entry converts, and the demo
container's decode never hits the conversion panic. -/
theorem C9_normalization_never_panics_witness :
    (∃ f : chunks.FI64, chunks.tryFromFileInfo
      (.FINF { byte_len := 0, filename := [0x61], file_size := 1,
               data_offset := 2, data_size := 3, mode := 4,
               data_hmac := zeros 20, data_md5 := zeros 16 }) = .ok f) ∧
    spk.parse demoBytes ≠ .error spk.Err.unwrapFail := by
  constructor
  · exact C9_normalization_never_panics.1 _ (by intro e h; cases h)
  · exact C9_normalization_never_panics.2 demoBytes

theorem packageOfSIDX_files {sidx : chunks.SIDX} {files : List spk.FileInfo}
    {q : spk.Package} (h : spk.packageOfSIDX sidx files = .ok q) :
    q.files = files := by
  unfold spk.packageOfSIDX at h
  split at h
  · simp at h
  · split at h
    · simp at h
    · simp only [Except.ok.injEq] at h
      rw [← h]

/-- Claim C1: for every file entry collected during a package decode, after
the Data-Segment Header chunk starting at stream position `P` has been
read, the entry's final stream-absolute offset is `P` plus the header's
size plus the entry's stored package-relative offset — with the header
size being 8 for the legacy ByteLength form and 16 for the extended form
(sums are u64 additions; when they do not overflow the offset is exactly
`P + 8 + d` resp. `P + 16 + d`). Every quantity below is anchored to the
actual run: the envelope read at the bound start `p` yields the bound
envelope `x`, each following reader is a function of the previous
position, `raw` and `P` are the output and end cursor of the actual
file-entry loop, and the SDAT read at `P` ends at the bound final cursor
`pEnd`. -/
theorem C1_offset_finalization (d : List Nat) (p : Nat) (pkg : spk.Package)
    (p0 : Nat) (x : chunks.SPK0) (pEnd : Nat)
    (h : spk.parsePackageBody d p = .ok (pkg, p0, x, pEnd)) :
    p0 = p ∧
    ∃ (p1 : Nat) (sidx : chunks.SIDX) (p2 : Nat) (strs : chunks.STRS)
      (p4 : Nat) (raw : List spk.FileInfo) (P : Nat) (sdat : chunks.SDAT),
      chunks.readSPK0 d p = some (x, p1) ∧
      chunks.readSIDX d p1 = some (sidx, p2) ∧
      chunks.readSTRS d (spk.sz64Probe d p2) = some (strs, p4) ∧
      spk.parseFiles d (wrap64 (spk.sz64Probe d p2 + 8)) (d.length + 1) [] p4 =
        .ok (raw, P) ∧
      chunks.readSDAT d P = some (sdat, pEnd) ∧
      pkg.files = spk.finalizeFiles P sdat raw ∧
      pkg.files = raw.map
        (fun g => { g with offset := wrap64 (g.offset + (P + sdat.header_size)) }) ∧
      (∀ g ∈ raw, P + sdat.header_size + g.offset < 2 ^ 64 →
        { g with offset := P + sdat.header_size + g.offset } ∈ pkg.files) ∧
      (∀ n, sdat.byte_len = chunks.ByteLen.Old n → sdat.header_size = 8) ∧
      (∀ n, sdat.byte_len = chunks.ByteLen.New n → sdat.header_size = 16) := by
  unfold spk.parsePackageBody at h
  split at h
  · exact absurd h (by simp)
  rename_i spk0 p1 hspk0
  split at h
  · exact absurd h (by simp)
  rename_i sidx p2 hsidx
  split at h
  · exact absurd h (by simp)
  rename_i strs p4 hstrs
  split at h
  · exact absurd h (by simp)
  rename_i files p5 hfiles
  split at h
  · exact absurd h (by simp)
  rename_i sdat p6 hsdat
  split at h
  · exact absurd h (by simp)
  rename_i pkg2 hpkg
  simp only [Except.ok.injEq, Prod.mk.injEq] at h
  obtain ⟨hpkgEq, hp0, hx, hpEnd⟩ := h
  have hfeq : pkg.files = spk.finalizeFiles p5 sdat files := by
    rw [← hpkgEq]
    exact packageOfSIDX_files hpkg
  refine ⟨hp0.symm, p1, sidx, p2, strs, p4, files, p5, sdat,
    hx ▸ hspk0, hsidx, hstrs, hfiles, hpEnd ▸ hsdat, hfeq, hfeq, ?_, ?_, ?_⟩
  · intro g hg hlt
    rw [hfeq]
    have h1 : p5 + sdat.header_size + g.offset = g.offset + (p5 + sdat.header_size) := by
      omega
    have h2 : p5 + sdat.header_size + g.offset =
        wrap64 (g.offset + (p5 + sdat.header_size)) := by
      rw [← h1, wrap64_eq_of_lt hlt]
    rw [h2]
    exact List.mem_map_of_mem _ hg
  · intro n hn
    unfold chunks.SDAT.header_size
    rw [hn]
    rfl
  · intro n hn
    unfold chunks.SDAT.header_size
    rw [hn]
    rfl

/-- Witness for C1 at the demo container: the envelope is read at 12, the
metadata at 20, the string table at 76, the file loop collects the entry
with stored offset 5 and ends at 168, where the data-segment header in
the legacy form is read, ending at 176; the entry is finalized to
168 + 8 + 5 = 181. -/
theorem C1_offset_finalization_witness :
    (12 : Nat) = 12 ∧
    ∃ (p1 : Nat) (sidx : chunks.SIDX) (p2 : Nat) (strs : chunks.STRS)
      (p4 : Nat) (raw : List spk.FileInfo) (P : Nat) (sdat : chunks.SDAT),
      chunks.readSPK0 demoBytes 12 = some (chunks.SPK0.mk (chunks.ByteLen.Old 0), p1) ∧
      chunks.readSIDX demoBytes p1 = some (sidx, p2) ∧
      chunks.readSTRS demoBytes (spk.sz64Probe demoBytes p2) = some (strs, p4) ∧
      spk.parseFiles demoBytes (wrap64 (spk.sz64Probe demoBytes p2 + 8))
        (demoBytes.length + 1) [] p4 = .ok (raw, P) ∧
      chunks.readSDAT demoBytes P = some (sdat, 176) ∧
      demoPkg.files = spk.finalizeFiles P sdat raw ∧
      demoPkg.files = raw.map
        (fun g => { g with offset := wrap64 (g.offset + (P + sdat.header_size)) }) ∧
      (∀ g ∈ raw, P + sdat.header_size + g.offset < 2 ^ 64 →
        { g with offset := P + sdat.header_size + g.offset } ∈ demoPkg.files) ∧
      (∀ n, sdat.byte_len = chunks.ByteLen.Old n → sdat.header_size = 8) ∧
      (∀ n, sdat.byte_len = chunks.ByteLen.New n → sdat.header_size = 16) :=
  ⟨rfl, (C1_offset_finalization demoBytes 12 demoPkg 12
    (chunks.SPK0.mk (chunks.ByteLen.Old 0)) 176 (by rfl)).2⟩

theorem readFINF_spec {d : List Nat} {b p : Nat} {g : chunks.FINF} {p' : Nat}
    (h : chunks.readFINF d b p = some (g, p')) :
    p' = p + 68 ∧ ∃ ptr r, readU32 d (p + 8) = some (ptr, p + 12) ∧
      readNullString d (wrap64 (b + ptr)) = some (g.filename, r) := by
  unfold chunks.readFINF at h
  split at h
  · exact absurd h (by simp)
  rename_i p1 hm
  split at h
  · exact absurd h (by simp)
  rename_i bl p2 hbl
  split at h
  · exact absurd h (by simp)
  rename_i ptr p3 hptr
  split at h
  · exact absurd h (by simp)
  rename_i nm r hnm
  split at h
  · exact absurd h (by simp)
  rename_i fs p4 hfs
  split at h
  · exact absurd h (by simp)
  rename_i doff p5 hdoff
  split at h
  · exact absurd h (by simp)
  rename_i dsz p6 hdsz
  split at h
  · exact absurd h (by simp)
  rename_i md p7 hmd
  split at h
  · exact absurd h (by simp)
  rename_i hm20 p8 hhm
  split at h
  · exact absurd h (by simp)
  rename_i m5 p9 hm5
  simp only [Option.some.injEq, Prod.mk.injEq] at h
  obtain ⟨hg, hp'⟩ := h
  have e1 := readMagic_pos hm
  have e2 := readU32_pos hbl
  have e3 := readU32_pos hptr
  have e4 := readU32_pos hfs
  have e5 := readU32_pos hdoff
  have e6 := readU32_pos hdsz
  have e7 := readU16_pos hmd
  have e8 := readBytes_pos hhm
  have e9 := readBytes_pos hm5
  simp only [tagFINF, List.length_cons, List.length_nil] at e1
  constructor
  · omega
  · refine ⟨ptr, r, ?_, ?_⟩
    · have h1 : p2 = p + 8 := by omega
      have h2 : p3 = p + 12 := by omega
      rw [h1, h2] at hptr
      exact hptr
    · rw [← hg]
      exact hnm

theorem readFI64_spec {d : List Nat} {b p : Nat} {g : chunks.FI64} {p' : Nat}
    (h : chunks.readFI64 d b p = some (g, p')) :
    p' = p + 88 ∧ ∃ ptr r, readU64 d (p + 8) = some (ptr, p + 16) ∧
      readNullString d (wrap64 (b + ptr)) = some (g.filename, r) := by
  unfold chunks.readFI64 at h
  split at h
  · exact absurd h (by simp)
  rename_i p1 hm
  split at h
  · exact absurd h (by simp)
  rename_i bl p2 hbl
  split at h
  · exact absurd h (by simp)
  rename_i ptr p3 hptr
  split at h
  · exact absurd h (by simp)
  rename_i nm r hnm
  split at h
  · exact absurd h (by simp)
  rename_i fs p4 hfs
  split at h
  · exact absurd h (by simp)
  rename_i doff p5 hdoff
  split at h
  · exact absurd h (by simp)
  rename_i dsz p6 hdsz
  split at h
  · exact absurd h (by simp)
  rename_i md p7 hmd
  split at h
  · exact absurd h (by simp)
  rename_i hm20 p8 hhm
  split at h
  · exact absurd h (by simp)
  rename_i m5 p9 hm5
  simp only [Option.some.injEq, Prod.mk.injEq] at h
  obtain ⟨hg, hp'⟩ := h
  have e1 := readMagic_pos hm
  have e2 := readU32_pos hbl
  have e3 := readU64_pos hptr
  have e4 := readU64_pos hfs
  have e5 := readU64_pos hdoff
  have e6 := readU64_pos hdsz
  have e7 := readU16_pos hmd
  have e8 := readBytes_pos hhm
  have e9 := readBytes_pos hm5
  simp only [tagFI64, List.length_cons, List.length_nil] at e1
  constructor
  · omega
  · refine ⟨ptr, r, ?_, ?_⟩
    · have h1 : p2 = p + 8 := by omega
      have h2 : p3 = p + 16 := by omega
      rw [h1, h2] at hptr
      exact hptr
    · rw [← hg]
      exact hnm

theorem readFileInfo_finf {d : List Nat} {b p : Nat} {g : chunks.FINF} {p1 : Nat}
    (h : chunks.readFileInfo d b p = some (.FINF g, p1)) :
    chunks.readFINF d b p = some (g, p1) := by
  unfold chunks.readFileInfo at h
  split at h
  · rename_i g2 p2 hg
    simp only [Option.some.injEq, Prod.mk.injEq, chunks.FileInfo.FINF.injEq] at h
    rw [← h.1, ← h.2]
    exact hg
  · split at h
    · simp at h
    · split at h
      · simp at h
      · exact absurd h (by simp)

theorem readFileInfo_fi64 {d : List Nat} {b p : Nat} {g : chunks.FI64} {p1 : Nat}
    (h : chunks.readFileInfo d b p = some (.FI64 g, p1)) :
    chunks.readFI64 d b p = some (g, p1) := by
  unfold chunks.readFileInfo at h
  split at h
  · simp at h
  · split at h
    · rename_i g2 p2 hg
      simp only [Option.some.injEq, Prod.mk.injEq, chunks.FileInfo.FI64.injEq] at h
      rw [← h.1, ← h.2]
      exact hg
    · split at h
      · simp at h
      · exact absurd h (by simp)

theorem readFileInfo_fend {d : List Nat} {b p : Nat} {e : chunks.FEND} {p1 : Nat}
    (h : chunks.readFileInfo d b p = some (.FEND e, p1)) :
    chunks.readFEND d p = some (e, p1) := by
  unfold chunks.readFileInfo at h
  split at h
  · simp at h
  · split at h
    · simp at h
    · split at h
      · rename_i e2 p2 he
        simp only [Option.some.injEq, Prod.mk.injEq, chunks.FileInfo.FEND.injEq] at h
        rw [← h.1, ← h.2]
        exact he
      · exact absurd h (by simp)

theorem parseFiles_namesChained (d : List Nat) (b : Nat) :
    ∀ (fuel : Nat) (acc : List spk.FileInfo) (p : Nat) (out : List spk.FileInfo) (q : Nat),
      spk.parseFiles d b fuel acc p = .ok (out, q) →
      ∃ new, out = acc.reverse ++ new ∧ spk.namesChained d b p new q := by
  intro fuel
  induction fuel with
  | zero =>
    intro acc p out q h
    unfold spk.parseFiles at h
    exact absurd h (by simp)
  | succ fuel ih =>
    intro acc p out q h
    unfold spk.parseFiles at h
    split at h
    · exact absurd h (by simp)
    · rename_i e p1 hfend
      simp only [Except.ok.injEq, Prod.mk.injEq] at h
      refine ⟨[], by simp [← h.1], ?_⟩
      simp only [spk.namesChained]
      refine ⟨e, ?_⟩
      rw [← h.2]
      exact readFileInfo_fend hfend
    · rename_i fi p1 hfi hne
      split at h
      · exact absurd h (by simp)
      · rename_i f' htf
        obtain ⟨new, hout, hchain⟩ := ih _ _ _ _ h
        refine ⟨spk.mkFileInfo f' :: new, by simp [hout], ?_⟩
        simp only [spk.namesChained]
        cases fi with
        | FINF g =>
          have hg := readFileInfo_finf hne
          obtain ⟨_, ptr, r, hptr, hnm⟩ := readFINF_spec hg
          simp only [chunks.tryFromFileInfo, Except.ok.injEq] at htf
          refine ⟨p1, f', ptr, r, .inl ⟨g, hg, ?_, hptr, hnm, ?_⟩, rfl, hchain⟩
          · simp only [chunks.tryFromFileInfo, htf]
          · rw [← htf]
            rfl
        | FI64 g =>
          have hg := readFileInfo_fi64 hne
          obtain ⟨_, ptr, r, hptr, hnm⟩ := readFI64_spec hg
          simp only [chunks.tryFromFileInfo, Except.ok.injEq] at htf
          refine ⟨p1, f', ptr, r, .inr ⟨g, hg, ?_, hptr, hnm, ?_⟩, rfl, hchain⟩
          · simp only [chunks.tryFromFileInfo, htf]
          · rw [← htf]
            rfl
        | FEND e => exact (hfi e rfl).elim

/-- Claim C3, counterexample to "a non-UTF-8 name is a parse failure":
in the demo container whose file entry points at table offset 6, the
NUL-terminated byte sequence at absolute address 76 + 8 + 6 = 90 is the
single byte 0xff, which is not valid UTF-8 (the strict decoder rejects
it) — yet the container decode succeeds, delivering the U+FFFD
replacement character as the filename instead of failing. -/
theorem C3_counterexample :
    utf8Decode [0xff] = none ∧
    readNullString demoBadName (wrap64 (76 + 8 + 6)) = some ([0xff], 92) ∧
    spk.parse demoBadName =
      .ok [{ demoPkg with
             files := [{ demoPkgFile with name := String.mk [repChar] }] }] :=
  ⟨rfl, rfl, rfl⟩

/-- Claim C3, amended: for every file entry decoded while the owning
package's String Table chunk starts at stream position `T` (the position
probed right after the metadata, to which the decoder passes the pointer
base `T + 8`), the entry's filename is the NUL-terminated byte sequence
stored at stream address `(T + 8) + ptr` (u64 arithmetic) for the
pointer value `ptr` actually stored 8 bytes into that entry's own
record — all record positions being chained from the loop start `p4` by
`namesChained` — decoded as UTF-8 with every ill-formed sequence
replaced by U+FFFD (lossy, never a parse failure); offset finalization
does not touch the names; and each record decode leaves the main
sequential cursor at a fixed stride from the record start (68 bytes for
a narrow entry, 88 for a wide one) independent of the pointer excursion,
for any number of resolved names. -/
theorem C3_amended_pointer_resolver :
    (∀ (d : List Nat) (p : Nat) (pkg : spk.Package) (p0 : Nat)
      (x : chunks.SPK0) (pEnd : Nat),
      spk.parsePackageBody d p = .ok (pkg, p0, x, pEnd) →
      ∃ (p1 : Nat) (sidx : chunks.SIDX) (p2 T : Nat) (strs : chunks.STRS)
        (p4 : Nat) (raw : List spk.FileInfo) (P : Nat) (sdat : chunks.SDAT),
        chunks.readSPK0 d p = some (x, p1) ∧
        chunks.readSIDX d p1 = some (sidx, p2) ∧
        T = spk.sz64Probe d p2 ∧
        chunks.readSTRS d T = some (strs, p4) ∧
        spk.namesChained d (wrap64 (T + 8)) p4 raw P ∧
        chunks.readSDAT d P = some (sdat, pEnd) ∧
        pkg.files = spk.finalizeFiles P sdat raw ∧
        pkg.files.map (fun f => f.name) = raw.map (fun f => f.name)) ∧
    (∀ (d : List Nat) (b p : Nat) (g : chunks.FINF) (p' : Nat),
      chunks.readFINF d b p = some (g, p') → p' = p + 68) ∧
    (∀ (d : List Nat) (b p : Nat) (g : chunks.FI64) (p' : Nat),
      chunks.readFI64 d b p = some (g, p') → p' = p + 88) := by
  refine ⟨?_, fun d b p g p' h => (readFINF_spec h).1,
    fun d b p g p' h => (readFI64_spec h).1⟩
  intro d p pkg p0 x pEnd h
  unfold spk.parsePackageBody at h
  split at h
  · exact absurd h (by simp)
  rename_i spk0 p1 hspk0
  split at h
  · exact absurd h (by simp)
  rename_i sidx p2 hsidx
  split at h
  · exact absurd h (by simp)
  rename_i strs p4 hstrs
  split at h
  · exact absurd h (by simp)
  rename_i files p5 hfiles
  split at h
  · exact absurd h (by simp)
  rename_i sdat p6 hsdat
  split at h
  · exact absurd h (by simp)
  rename_i pkg2 hpkg
  simp only [Except.ok.injEq, Prod.mk.injEq] at h
  obtain ⟨hpkgEq, hp0, hx, hpEnd⟩ := h
  have hfeq : pkg.files = spk.finalizeFiles p5 sdat files := by
    rw [← hpkgEq]
    exact packageOfSIDX_files hpkg
  obtain ⟨new, hout, hchain⟩ := parseFiles_namesChained d _ _ _ _ _ _ hfiles
  simp only [List.reverse_nil, List.nil_append] at hout
  refine ⟨p1, sidx, p2, spk.sz64Probe d p2, strs, p4, files, p5, sdat,
    hx ▸ hspk0, hsidx, rfl, hstrs, ?_, hpEnd ▸ hsdat, hfeq, ?_⟩
  · rw [hout]
    exact hchain
  · rw [hfeq]
    unfold spk.finalizeFiles
    rw [List.map_map]
    rfl

/-- Witness for C3's amended claim at the demo container: its string table
starts at 76 (pointer base 84), the file loop runs from 92 with the
single entry's record pointer resolving the name "a.txt", and the narrow
record read at 92 ends exactly at 92 + 68 = 160. -/
theorem C3_amended_pointer_resolver_witness :
    (∃ (p1 : Nat) (sidx : chunks.SIDX) (p2 T : Nat) (strs : chunks.STRS)
      (p4 : Nat) (raw : List spk.FileInfo) (P : Nat) (sdat : chunks.SDAT),
      chunks.readSPK0 demoBytes 12 = some (chunks.SPK0.mk (chunks.ByteLen.Old 0), p1) ∧
      chunks.readSIDX demoBytes p1 = some (sidx, p2) ∧
      T = spk.sz64Probe demoBytes p2 ∧
      chunks.readSTRS demoBytes T = some (strs, p4) ∧
      spk.namesChained demoBytes (wrap64 (T + 8)) p4 raw P ∧
      chunks.readSDAT demoBytes P = some (sdat, 176) ∧
      demoPkg.files = spk.finalizeFiles P sdat raw ∧
      demoPkg.files.map (fun f => f.name) = raw.map (fun f => f.name)) ∧
    (160 : Nat) = 92 + 68 ∧
    chunks.readFINF demoBytes 84 92 =
      some (⟨0, [0x61, 0x2e, 0x74, 0x78, 0x74], 3, 5, 3, 420, zeros 20, zeros 16⟩, 160) := by
  refine ⟨C3_amended_pointer_resolver.1 demoBytes 12 demoPkg 12
    (chunks.SPK0.mk (chunks.ByteLen.Old 0)) 176 (by rfl), ?_, ?_⟩
  · have := C3_amended_pointer_resolver.2.1 demoBytes 84 92
      ⟨0, [0x61, 0x2e, 0x74, 0x78, 0x74], 3, 5, 3, 420, zeros 20, zeros 16⟩ 160 (by rfl)
    omega
  · rfl
